import Mathlib

/-!
Shallow embedding of the Multinomial distribution module
(tensorflow/contrib/distributions/python/ops/multinomial.py) and proofs about it.

Tensors are modelled per batch element: the trial count n is a real scalar and
the probability parameter p is a real vector of length K (the class axis).
Floating-point arithmetic is modelled by real arithmetic.  The deferred
assertion graph (control_dependencies / with_dependencies) is modelled by
eager checks performed in the order the assertions appear in the source list,
with a failed check producing an error value (Except.error).
-/

open scoped BigOperators

/-- Error raised by the parameter assertions wired into the constructor
(check_ops.assert_non_negative / distribution_util.assert_integer_form on n). -/
structure InvalidParameterError where
  message : String
deriving DecidableEq

/-- Error raised by the sample assertions of _assert_valid_sample. -/
structure SampleConstraintError where
  message : String
deriving DecidableEq

/-- Modelled from the spec: distribution_util.assert_integer_form is not under
src/; per spec section 4.2 it checks that every component equals its floor, so a
real number is integer-valued when it equals its floor. -/
def integer_form (x : ℝ) : Prop := x = (⌊x⌋ : ℝ)

noncomputable instance (x : ℝ) : Decidable ( integer_form x) :=
  inferInstanceAs (Decidable (x = (⌊x⌋ : ℝ)))

lemma integer_form_intCast (m : ℤ) : integer_form (m : ℝ) := by
  simp [ integer_form]

lemma integer_form_natCast (m : ℕ) : integer_form (m : ℝ) := by
  simpa using integer_form_intCast (m : ℤ)

/-- The log-gamma function, `lgamma x = log (Gamma x)`. -/
noncomputable def lgamma (x : ℝ) : ℝ := Real.log (Real.Gamma x)

/-- Modelled from the spec: distribution_util.log_combinations is not under
src/; per spec section 4.3, `log_combinations(n, counts) = log(n!) - sum_j
log(counts_j!)` with each factorial-log evaluated as `log(x!) = lgamma(x+1)`. -/
noncomputable def log_combinations {K : ℕ} (n : ℝ) (counts : Fin K → ℝ) : ℝ :=
  lgamma (n + 1) - ∑ j, lgamma (counts j + 1)

/-- State of a constructed Multinomial distribution (one batch element):
the stored trial count `_n`, probabilities `_p`, the validate flag passed
through to the base class, the precomputed `_mean_val = expand_dims(n,-1) * p`,
and `_broadcast_shape = reduce_sum(_mean_val, [-1])`. -/
structure Multinomial (K : ℕ) where
  n : ℝ
  p : Fin K → ℝ
  validate_args : Bool
  mean_val : Fin K → ℝ
  broadcast_shape : ℝ

/-- Default of the constructor's validate flag (source line 95:
`validate_args=True`). -/
def validate_args_default : Bool := true

/-- The constructor `Multinomial.__init__` (lines 139-160), with the
probability parameterization: when the validate flag is set, the dependency
list carries `assert_non_negative(n, "n has negative components.")` followed by
`assert_integer_form(n, "n has non-integer components.")`; then the state is
stored with `_mean_val = expand_dims(n,-1) * p` and
`_broadcast_shape = reduce_sum(_mean_val, [-1])`. -/
noncomputable def Multinomial.make {K : ℕ} (n : ℝ) (p : Fin K → ℝ)
    (validate_args : Bool) : Except InvalidParameterError (Multinomial K) :=
  if validate_args then
    if ¬ (0 ≤ n) then .error ⟨"n has negative components."⟩
    else if ¬ integer_form n then .error ⟨"n has non-integer components."⟩
    else .ok ⟨n, p, validate_args, fun j => n * p j, ∑ j, n * p j⟩
  else .ok ⟨n, p, validate_args, fun j => n * p j, ∑ j, n * p j⟩

/-- `_assert_valid_sample` (lines 212-223): pass `counts` through unchecked when
the validate flag is off; otherwise check, in the order of the dependency list,
non-negativity, `assert_equal(n, reduce_sum(counts, [-1]))`, and integer form. -/
noncomputable def Multinomial.assert_valid_sample {K : ℕ} (d : Multinomial K)
    (counts : Fin K → ℝ) : Except SampleConstraintError (Fin K → ℝ) :=
  if d.validate_args then
    if ¬ (∀ j, 0 ≤ counts j) then .error ⟨"counts has negative components."⟩
    else if ¬ (d.n = ∑ j, counts j) then .error ⟨"counts do not sum to n."⟩
    else if ¬ (∀ j, integer_form (counts j)) then
      .error ⟨"counts have non-integer components."⟩
    else .ok counts
  else .ok counts

/-- `_log_prob` (lines 190-196): validate the sample, then return
`reduce_sum(counts * log(p), [-1]) - (-log_combinations(n, counts))`. -/
noncomputable def Multinomial.log_prob {K : ℕ} (d : Multinomial K)
    (counts : Fin K → ℝ) : Except SampleConstraintError ℝ :=
  (d.assert_valid_sample counts).map fun counts =>
    let log_unnormalized_prob := ∑ j, counts j * Real.log (d.p j)
    let log_normalizer := -log_combinations d.n counts
    log_unnormalized_prob - log_normalizer

/-- `_prob` (lines 198-199): `exp(_log_prob(counts))`. -/
noncomputable def Multinomial.prob {K : ℕ} (d : Multinomial K)
    (counts : Fin K → ℝ) : Except SampleConstraintError ℝ :=
  (d.log_prob counts).map Real.exp

/-- `_mean` (lines 201-202): return (the identity of) the stored `_mean_val`. -/
noncomputable def Multinomial.mean {K : ℕ} (d : Multinomial K) : Fin K → ℝ :=
  d.mean_val

/-- `batch_matrix_set_diag m diag` overwrites the main diagonal of the matrix
`m` with the vector `diag` (semantics of array_ops.batch_matrix_set_diag on one
batch element). -/
def batch_matrix_set_diag {K : ℕ} (m : Fin K → Fin K → ℝ) (diag : Fin K → ℝ) :
    Fin K → Fin K → ℝ :=
  fun i j => if i = j then diag i else m i j

/-- `_variance` (lines 204-210): broadcast `p` against `n` (a no-op for one
batch element), form the outer product `expand_dims(mean_val,-1) *
expand_dims(p,-2)` via batch_matmul, negate it, and overwrite the diagonal with
`mean_val - mean_val * p`. -/
noncomputable def Multinomial.variance {K : ℕ} (d : Multinomial K) :
    Fin K → Fin K → ℝ :=
  let p := fun j => d.p j * 1
  let outer_prod := fun i j => d.mean_val i * p j
  batch_matrix_set_diag (fun i j => -outer_prod i j)
    (fun i => d.mean_val i - d.mean_val i * p i)

lemma Multinomial.make_ok {K : ℕ} {n : ℝ} {p : Fin K → ℝ} {v : Bool}
    {d : Multinomial K} (h : Multinomial.make n p v = .ok d) :
    d = ⟨n, p, v, fun j => n * p j, ∑ j, n * p j⟩ := by
  unfold Multinomial.make at h
  split at h
  · split at h
    · exact absurd h (by simp)
    · split at h
      · exact absurd h (by simp)
      · simpa using h.symm
  · simpa using h.symm

lemma Multinomial.assert_valid_sample_ok_of_valid {K : ℕ} (d : Multinomial K)
    (counts : Fin K → ℝ) (h0 : ∀ j, 0 ≤ counts j) (h1 : d.n = ∑ j, counts j)
    (h2 : ∀ j, integer_form (counts j)) :
    d.assert_valid_sample counts = .ok counts := by
  unfold Multinomial.assert_valid_sample
  split <;> simp_all

lemma Multinomial.assert_valid_sample_eq_ok {K : ℕ} {d : Multinomial K}
    {counts c : Fin K → ℝ} (h : d.assert_valid_sample counts = .ok c) :
    c = counts := by
  unfold Multinomial.assert_valid_sample at h
  split at h
  · split at h
    · exact absurd h (by simp)
    · split at h
      · exact absurd h (by simp)
      · split at h
        · exact absurd h (by simp)
        · simpa using h.symm
  · simpa using h.symm

lemma Multinomial.log_prob_of_assert_ok {K : ℕ} {d : Multinomial K}
    {counts : Fin K → ℝ} (h : d.assert_valid_sample counts = .ok counts) :
    d.log_prob counts =
      .ok ((∑ j, counts j * Real.log (d.p j)) -
        -log_combinations d.n counts) := by
  unfold Multinomial.log_prob
  rw [h]
  rfl

/-! Concrete exemplar instances used by witnesses. -/

/-- The probability vector of the documentation example, p = [.2, .3, .5]. -/
noncomputable def pEx : Fin 3 → ℝ := ![1/5, 3/10, 1/2]

/-- The distribution of the documentation example, Multinomial(n=4., p=pEx),
with validation enabled. -/
noncomputable def dEx : Multinomial 3 :=
  ⟨4, pEx, true, fun j => 4 * pEx j, ∑ j, 4 * pEx j⟩

/-- The counts of the documentation example, counts = [1., 0, 3]. -/
noncomputable def countsEx : Fin 3 → ℝ := ![1, 0, 3]

lemma makeEx : Multinomial.make (4 : ℝ) pEx true = .ok dEx := by
  unfold Multinomial.make
  rw [if_pos rfl, if_neg (by norm_num), if_neg (by norm_num [ integer_form])]
  rfl

lemma assertEx : dEx.assert_valid_sample countsEx = .ok countsEx := by
  apply Multinomial.assert_valid_sample_ok_of_valid
  · intro j; fin_cases j <;> norm_num [countsEx]
  · show (4 : ℝ) = _
    rw [Fin.sum_univ_three]
    norm_num [countsEx]
  · intro j; fin_cases j <;> norm_num [countsEx, integer_form]

/-- C2: for every distribution constructed from trial count n and probability
vector p of length K, variance() is the K-by-K matrix whose diagonal entry
[i,i] is n * p_i * (1 - p_i) and whose off-diagonal entry [i,j] (i different
from j) is -n * p_i * p_j. -/
theorem variance_matrix_entries {K : ℕ} {n : ℝ} {p : Fin K → ℝ} {v : Bool}
    {d : Multinomial K} (h : Multinomial.make n p v = .ok d) (i j : Fin K) :
    (i = j → d.variance i j = n * p i * (1 - p i)) ∧
    (i ≠ j → d.variance i j = -(n * p i * p j)) := by
  obtain rfl := Multinomial.make_ok h
  constructor
  · rintro rfl
    show (if i = i then _ else _) = _
    rw [if_pos rfl]
    ring
  · intro hij
    show (if i = j then _ else _) = _
    rw [if_neg hij]
    ring

/-- Witness for C2 at the documentation example n=4, p=[.2,.3,.5]. -/
theorem variance_matrix_entries_witness :
    dEx.variance 0 0 = 4 * pEx 0 * (1 - pEx 0) ∧
    dEx.variance 0 1 = -(4 * pEx 0 * pEx 1) :=
  ⟨(variance_matrix_entries makeEx 0 0).1 rfl,
   (variance_matrix_entries makeEx 0 1).2 (by decide)⟩

/-- C4: for every distribution and counts tensor, prob(counts) is literally
exp applied to the result of log_prob(counts); there is no independent
computation path (the equation holds by definitional unfolding of prob). -/
theorem prob_eq_exp_log_prob {K : ℕ} (d : Multinomial K)
    (counts : Fin K → ℝ) :
    d.prob counts = (d.log_prob counts).map Real.exp := rfl

/-- C5: for every distribution constructed from (n, p), mean() returns the
tensor stored at construction time (the precomputed mean_val field), and that
tensor has entries n * p_j. -/
theorem mean_precomputed {K : ℕ} {n : ℝ} {p : Fin K → ℝ} {v : Bool}
    {d : Multinomial K} (h : Multinomial.make n p v = .ok d) :
    d.mean = d.mean_val ∧ ∀ j, d.mean j = n * p j := by
  obtain rfl := Multinomial.make_ok h
  exact ⟨rfl, fun j => rfl⟩

/-- Witness for C5 at the documentation example. -/
theorem mean_precomputed_witness :
    dEx.mean = dEx.mean_val ∧ dEx.mean 0 = 4 * pEx 0 :=
  ⟨(mean_precomputed makeEx).1, (mean_precomputed makeEx).2 0⟩

/-- A sample-constraint error names a constraint that the given counts
actually violate for the given distribution. -/
def SampleConstraintError.identifies {K : ℕ} (e : SampleConstraintError)
    (d : Multinomial K) (counts : Fin K → ℝ) : Prop :=
  (e.message = "counts has negative components." ∧ ∃ j, counts j < 0) ∨
  (e.message = "counts do not sum to n." ∧ d.n ≠ ∑ j, counts j) ∨
  (e.message = "counts have non-integer components." ∧
    ∃ j, ¬ integer_form (counts j))

/-- C6: when validate_args is true, log_prob and prob produce a
SampleConstraintError identifying a violated constraint whenever counts has a
negative component, or the counts do not sum to n, or some component is
non-integer; when validate_args is false, counts passes through unchecked and
both methods produce ordinary values. -/
theorem sample_validation_gating {K : ℕ} (d : Multinomial K)
    (counts : Fin K → ℝ) :
    (d.validate_args = true →
      ((∃ j, counts j < 0) ∨ d.n ≠ ∑ j, counts j ∨
          (∃ j, ¬ integer_form (counts j)) →
        ∃ e, d.log_prob counts = .error e ∧ d.prob counts = .error e ∧
          e.identifies d counts)) ∧
    (d.validate_args = false →
      d.assert_valid_sample counts = .ok counts ∧
      ∃ r, d.log_prob counts = .ok r ∧ d.prob counts = .ok (Real.exp r)) := by
  constructor
  · intro hv hviol
    have herr : ∃ e, d.assert_valid_sample counts = .error e ∧
        e.identifies d counts := by
      unfold Multinomial.assert_valid_sample
      rw [hv, if_pos rfl]
      by_cases h0 : ∀ j, 0 ≤ counts j
      · rw [if_neg (not_not_intro h0)]
        by_cases h1 : d.n = ∑ j, counts j
        · rw [if_neg (not_not_intro h1)]
          by_cases h2 : ∀ j, integer_form (counts j)
          · refine absurd hviol ?_
            push_neg
            exact ⟨h0, h1, h2⟩
          · rw [if_pos h2]
            exact ⟨_, rfl, Or.inr (Or.inr ⟨rfl, not_forall.mp h2⟩)⟩
        · rw [if_pos h1]
          exact ⟨_, rfl, Or.inr (Or.inl ⟨rfl, h1⟩)⟩
      · rw [if_pos h0]
        refine ⟨_, rfl, Or.inl ⟨rfl, ?_⟩⟩
        obtain ⟨j, hj⟩ := not_forall.mp h0
        exact ⟨j, lt_of_not_le hj⟩
    obtain ⟨e, he, hid⟩ := herr
    refine ⟨e, ?_, ?_, hid⟩
    · unfold Multinomial.log_prob
      rw [he]
      rfl
    · unfold Multinomial.prob Multinomial.log_prob
      rw [he]
      rfl
  · intro hv
    have hok : d.assert_valid_sample counts = .ok counts := by
      unfold Multinomial.assert_valid_sample
      rw [hv]
      rfl
    refine ⟨hok, _, Multinomial.log_prob_of_assert_ok hok, ?_⟩
    unfold Multinomial.prob
    rw [Multinomial.log_prob_of_assert_ok hok]
    rfl

/-- Counts vector with a negative component, used by the C6 witness. -/
noncomputable def countsNeg : Fin 3 → ℝ := ![-1, 2, 3]

/-- Witness for C6: at the documentation example (validation enabled) and a
counts vector with a negative component, log_prob and prob produce an error
identifying a violated constraint. -/
theorem sample_validation_gating_witness :
    ∃ e, dEx.log_prob countsNeg = .error e ∧ dEx.prob countsNeg = .error e ∧
      e.identifies dEx countsNeg :=
  (sample_validation_gating dEx countsNeg).1 rfl
    (Or.inl ⟨0, by norm_num [countsNeg]⟩)

/-- C7 amended: when the validate flag is set, construction reports "n has
negative components." whenever n is negative, and reports "n has non-integer
components." whenever n is non-negative but not integer-valued (the
non-negativity assertion is listed first, so a negative non-integer n is
reported as negative); when the flag is unset, no check occurs and
construction succeeds. -/
theorem make_parameter_checks {K : ℕ} (n : ℝ) (p : Fin K → ℝ) (v : Bool) :
    (v = true →
      ((n < 0 →
        Multinomial.make n p v = .error ⟨"n has negative components."⟩) ∧
      (0 ≤ n → ¬ integer_form n →
        Multinomial.make n p v = .error ⟨"n has non-integer components."⟩))) ∧
    (v = false →
      Multinomial.make n p v =
        .ok ⟨n, p, v, fun j => n * p j, ∑ j, n * p j⟩) := by
  constructor
  · rintro rfl
    constructor
    · intro hneg
      unfold Multinomial.make
      rw [if_pos rfl, if_pos (not_le.mpr hneg)]
    · intro hnn hni
      unfold Multinomial.make
      rw [if_pos rfl, if_neg (not_not_intro hnn), if_pos hni]
  · rintro rfl
    unfold Multinomial.make
    rfl

/-- Witness for the amended C7: at n = 4 with the validate flag unset, and at
n = -1 with it set, the stated branches are taken. -/
theorem make_parameter_checks_witness :
    Multinomial.make (-1 : ℝ) pEx true =
      .error ⟨"n has negative components."⟩ ∧
    Multinomial.make (4 : ℝ) pEx false =
      .ok ⟨4, pEx, false, fun j => 4 * pEx j, ∑ j, 4 * pEx j⟩ :=
  ⟨((make_parameter_checks (-1 : ℝ) pEx true).1 rfl).1 (by norm_num),
   (make_parameter_checks (4 : ℝ) pEx false).2 rfl⟩

/-- Counterexample for C7 as stated: n = -1/2 has a non-integer component, yet
construction does not raise "n has non-integer components." (the negative-
components error is raised instead, because that assertion is listed first). -/
theorem make_parameter_checks_counterexample :
    ¬ integer_form ((-1 : ℝ) / 2) ∧
    Multinomial.make ((-1 : ℝ) / 2) pEx true =
      .error ⟨"n has negative components."⟩ ∧
    Multinomial.make ((-1 : ℝ) / 2) pEx true ≠
      .error ⟨"n has non-integer components."⟩ := by
  have hni : ¬ integer_form ((-1 : ℝ) / 2) := by norm_num [ integer_form]
  have heq : Multinomial.make ((-1 : ℝ) / 2) pEx true =
      .error ⟨"n has negative components."⟩ := by
    unfold Multinomial.make
    rw [if_pos rfl, if_pos (by norm_num)]
  refine ⟨hni, heq, ?_⟩
  rw [heq]
  intro hcontra
  have : ("n has negative components." : String) =
      "n has non-integer components." := by
    injection hcontra with h
    injection h
  exact absurd this (by decide)

/-- C9 amended: there is a single validate_args flag: the value supplied to
the constructor (default true, per validate_args_default) both gates the
constructor-level checks on n and is stored unchanged as the flag gating the
sample checks in log_prob/prob; the two gates never differ. -/
theorem validate_flag_shared {K : ℕ} {n : ℝ} {p : Fin K → ℝ} {v : Bool}
    {d : Multinomial K} (h : Multinomial.make n p v = .ok d) :
    d.validate_args = v ∧ validate_args_default = true := by
  obtain rfl := Multinomial.make_ok h
  exact ⟨rfl, rfl⟩

/-- The distribution obtained from n=3, p=pEx with the default validate flag. -/
noncomputable def dDef : Multinomial 3 :=
  ⟨3, pEx, validate_args_default, fun j => 3 * pEx j, ∑ j, 3 * pEx j⟩

lemma makeDef :
    Multinomial.make (3 : ℝ) pEx validate_args_default = .ok dDef := by
  unfold Multinomial.make validate_args_default
  rw [if_pos rfl, if_neg (by norm_num), if_neg (by norm_num [ integer_form])]
  rfl

/-- Witness for the amended C9 at the default-flag construction. -/
theorem validate_flag_shared_witness :
    dDef.validate_args = validate_args_default ∧
    validate_args_default = true :=
  validate_flag_shared makeDef

/-- Counterexample for C9 as stated: for a distribution constructed without
supplying validate_args (i.e. with the default), the flag gating the
constructor checks (the default, true) and the flag gating the sample checks
(the stored validate_args) are the same value, not different. -/
theorem validate_flag_counterexample :
    Multinomial.make (3 : ℝ) pEx validate_args_default = .ok dDef ∧
    dDef.validate_args = validate_args_default ∧
    validate_args_default = true :=
  ⟨makeDef, rfl, rfl⟩

lemma lgamma_natCast_add_one (m : ℕ) :
    lgamma ((m : ℝ) + 1) = Real.log (Nat.factorial m) := by
  rw [lgamma, Real.Gamma_nat_eq_factorial]

lemma exp_lgamma_natCast_add_one (m : ℕ) :
    Real.exp (lgamma ((m : ℝ) + 1)) = (Nat.factorial m : ℝ) := by
  rw [lgamma_natCast_add_one, Real.exp_log]
  exact_mod_cast Nat.factorial_pos m

lemma exp_sum_natCast_mul_log {K : ℕ} (p : Fin K → ℝ) (hp : ∀ j, 0 < p j)
    (k : Fin K → ℕ) :
    Real.exp (∑ j, (k j : ℝ) * Real.log (p j)) = ∏ j, p j ^ k j := by
  rw [Real.exp_sum]
  refine Finset.prod_congr rfl fun j _ => ?_
  rw [Real.exp_nat_mul, Real.exp_log (hp j)]

/-- C1: whenever log_prob(counts) produces a value, that value is the sum over
the last axis of counts * log(p), plus log(n!), minus the sum over j of
log(counts_j!), with each log-factorial evaluated as lgamma(x+1); and lgamma(x+1)
agrees with log(x!) at every integer-valued x. -/
theorem log_prob_formula {K : ℕ} (d : Multinomial K) (counts : Fin K → ℝ)
    (r : ℝ) (h : d.log_prob counts = .ok r) :
    r = (∑ j, counts j * Real.log (d.p j)) + lgamma (d.n + 1) -
      ∑ j, lgamma (counts j + 1) ∧
    ∀ m : ℕ, lgamma ((m : ℝ) + 1) = Real.log (Nat.factorial m) := by
  refine ⟨?_, lgamma_natCast_add_one⟩
  unfold Multinomial.log_prob at h
  cases hs : d.assert_valid_sample counts with
  | error e =>
    rw [hs] at h
    exact absurd h (by simp [Except.map])
  | ok c =>
    obtain rfl := Multinomial.assert_valid_sample_eq_ok hs
    rw [hs] at h
    simp only [Except.map, Except.ok.injEq] at h
    rw [← h, log_combinations]
    ring

/-- Witness for C1 at the documentation example n=4, p=[.2,.3,.5],
counts=[1,0,3]. -/
theorem log_prob_formula_witness :
    ((∑ j, countsEx j * Real.log (dEx.p j)) -
        -log_combinations dEx.n countsEx) =
      (∑ j, countsEx j * Real.log (dEx.p j)) + lgamma (dEx.n + 1) -
        ∑ j, lgamma (countsEx j + 1) ∧
    lgamma (((2 : ℕ) : ℝ) + 1) = Real.log (Nat.factorial 2) :=
  ⟨(log_prob_formula dEx countsEx _
      (Multinomial.log_prob_of_assert_ok assertEx)).1,
   (log_prob_formula dEx countsEx _
      (Multinomial.log_prob_of_assert_ok assertEx)).2 2⟩

/-- C10: for a distribution constructed with trial count n = 0 and a strictly
positive probability vector summing to 1, log_prob of the all-zero counts
vector is 0 and prob of it is 1. -/
theorem log_prob_empty_draw {K : ℕ} {p : Fin K → ℝ} {v : Bool}
    {d : Multinomial K} (h : Multinomial.make 0 p v = .ok d)
    (_hp : ∀ j, 0 < p j) (_hs : ∑ j, p j = 1) :
    d.log_prob (fun _ => 0) = .ok 0 ∧ d.prob (fun _ => 0) = .ok 1 := by
  obtain rfl := Multinomial.make_ok h
  set dd : Multinomial K :=
    ⟨0, p, v, fun j => 0 * p j, ∑ j, 0 * p j⟩ with hdd
  have hassert : dd.assert_valid_sample (fun _ => (0 : ℝ)) =
      .ok (fun _ => (0 : ℝ)) := by
    apply Multinomial.assert_valid_sample_ok_of_valid
    · intro j
      exact le_refl 0
    · show (0 : ℝ) = ∑ _j : Fin K, (0 : ℝ)
      simp
    · intro j
      simpa using integer_form_natCast 0
  have hval : ((∑ j : Fin K, (0 : ℝ) * Real.log (dd.p j)) -
      -log_combinations dd.n (fun _ : Fin K => (0 : ℝ))) = 0 := by
    have h1 : lgamma ((0 : ℝ) + 1) = 0 := by
      simpa using lgamma_natCast_add_one 0
    rw [log_combinations]
    show ((∑ _j : Fin K, (0 : ℝ) * Real.log (p _j)) -
      -(lgamma ((0 : ℝ) + 1) - ∑ _j : Fin K, lgamma ((0 : ℝ) + 1))) = 0
    rw [h1]
    simp
  have hlp := Multinomial.log_prob_of_assert_ok hassert
  constructor
  · rw [hlp, hval]
  · show Except.map Real.exp (dd.log_prob fun _ => 0) = _
    rw [hlp, hval]
    simp [Except.map]

/-- The uniform probability vector on two classes. -/
noncomputable def pB : Fin 2 → ℝ := ![1/2, 1/2]

/-- A two-class distribution with zero trials and the validate flag set. -/
noncomputable def dZero : Multinomial 2 :=
  ⟨0, pB, true, fun j => 0 * pB j, ∑ j, 0 * pB j⟩

lemma makeZero : Multinomial.make (0 : ℝ) pB true = .ok dZero := by
  unfold Multinomial.make
  rw [if_pos rfl, if_neg (by norm_num), if_neg (by norm_num [ integer_form])]
  rfl

/-- Witness for C10 at K=2, p=[1/2,1/2]. -/
theorem log_prob_empty_draw_witness :
    dZero.log_prob (fun _ => 0) = .ok 0 ∧ dZero.prob (fun _ => 0) = .ok 1 :=
  log_prob_empty_draw makeZero
    (by intro j; fin_cases j <;> norm_num [pB])
    (by rw [Fin.sum_univ_two]; norm_num [pB])

lemma Multinomial.prob_nat_counts {K N : ℕ} (d : Multinomial K)
    (hn : d.n = (N : ℝ)) (hp : ∀ j, 0 < d.p j) (k : Fin K → ℕ)
    (hk : ∑ j, k j = N) :
    d.prob (fun j => (k j : ℝ)) =
      .ok ((Nat.multinomial Finset.univ k : ℝ) * ∏ j, d.p j ^ k j) := by
  have hassert : d.assert_valid_sample (fun j => (k j : ℝ)) =
      .ok (fun j => (k j : ℝ)) := by
    apply Multinomial.assert_valid_sample_ok_of_valid
    · intro j
      exact Nat.cast_nonneg (k j)
    · rw [hn, ← hk]
      exact_mod_cast rfl
    · intro j
      exact integer_form_natCast (k j)
  have hlp := Multinomial.log_prob_of_assert_ok hassert
  have hexp : Real.exp ((∑ j, ((k j : ℝ)) * Real.log (d.p j)) -
      -log_combinations d.n (fun j => (k j : ℝ))) =
      (Nat.multinomial Finset.univ k : ℝ) * ∏ j, d.p j ^ k j := by
    have hABC : ((∑ j, ((k j : ℝ)) * Real.log (d.p j)) -
        -log_combinations d.n (fun j => (k j : ℝ))) =
        (∑ j, ((k j : ℝ)) * Real.log (d.p j)) + lgamma (d.n + 1) -
          ∑ j, lgamma ((k j : ℝ) + 1) := by
      rw [log_combinations]
      ring
    rw [hABC, hn, Real.exp_sub, Real.exp_add]
    rw [exp_sum_natCast_mul_log d.p hp k, exp_lgamma_natCast_add_one N]
    have hC : Real.exp (∑ j, lgamma ((k j : ℝ) + 1)) =
        ∏ j, ((k j).factorial : ℝ) := by
      rw [Real.exp_sum]
      exact Finset.prod_congr rfl fun j _ => exp_lgamma_natCast_add_one (k j)
    rw [hC]
    have hprodne : (∏ j, ((k j).factorial : ℝ)) ≠ 0 := by
      refine Finset.prod_ne_zero_iff.mpr fun j _ => ?_
      exact_mod_cast (Nat.factorial_pos (k j)).ne'
    have hspec : (∏ j, ((k j).factorial : ℝ)) *
        (Nat.multinomial Finset.univ k : ℝ) = (N.factorial : ℝ) := by
      rw [← hk]
      exact_mod_cast congrArg (Nat.cast (R := ℝ))
        (Nat.multinomial_spec Finset.univ k)
    rw [div_eq_iff hprodne, ← hspec]
    ring
  unfold Multinomial.prob
  rw [hlp]
  show Except.ok (Real.exp _) = _
  rw [hexp]

/-- C3: for a distribution constructed with a non-negative integer scalar
trial count N and a strictly positive probability vector summing to 1, the sum
of prob(counts) over all K-tuples of non-negative integers summing to N
equals 1. -/
theorem prob_sums_to_one {K N : ℕ} {p : Fin K → ℝ} {v : Bool}
    {d : Multinomial K} (h : Multinomial.make (N : ℝ) p v = .ok d)
    (hp : ∀ j, 0 < p j) (hs : ∑ j, p j = 1) :
    ∑ k ∈ Finset.piAntidiag Finset.univ N,
      ((d.prob fun j => (k j : ℝ)).toOption.getD 0) = 1 := by
  have hdn : d.n = (N : ℝ) := by
    obtain rfl := Multinomial.make_ok h
    rfl
  have hdp : d.p = p := by
    obtain rfl := Multinomial.make_ok h
    rfl
  have hterm : ∀ k ∈ Finset.piAntidiag Finset.univ N,
      ((d.prob fun j => (k j : ℝ)).toOption.getD 0) =
        (Nat.multinomial Finset.univ k : ℝ) * ∏ j, d.p j ^ k j := by
    intro k hk
    rw [Finset.mem_piAntidiag] at hk
    rw [Multinomial.prob_nat_counts d hdn (hdp ▸ hp) k hk.1]
    rfl
  rw [Finset.sum_congr rfl hterm, hdp,
    ← Finset.sum_pow_eq_sum_piAntidiag Finset.univ p N, hs, one_pow]

/-- A two-class distribution with two trials and uniform probabilities. -/
noncomputable def dB : Multinomial 2 :=
  ⟨((2 : ℕ) : ℝ), pB, true, fun j => ((2 : ℕ) : ℝ) * pB j,
    ∑ j, ((2 : ℕ) : ℝ) * pB j⟩

lemma makeB : Multinomial.make (((2 : ℕ)) : ℝ) pB true = .ok dB := by
  unfold Multinomial.make
  rw [if_pos rfl, if_neg (not_not_intro (Nat.cast_nonneg 2)),
    if_neg (not_not_intro (integer_form_natCast 2))]
  rfl

/-- Witness for C3: the two-trial, two-class uniform distribution sums to 1
over all count vectors adding up to 2. -/
theorem prob_sums_to_one_witness :
    ∑ k ∈ Finset.piAntidiag (Finset.univ : Finset (Fin 2)) (2 : ℕ),
      ((dB.prob fun j => (k j : ℝ)).toOption.getD 0) = 1 :=
  prob_sums_to_one makeB
    (by intro j; fin_cases j <;> norm_num [pB])
    (by rw [Fin.sum_univ_two]; norm_num [pB])
